import Mathlib

/-!
# Verification of the kitt-throbbler Knight Rider animator

Shallow embedding of `src/lib.rs` (crate `kitt_throbbler`).

Conventions of the embedding:
* Rust `usize` is modelled as `Nat`; the two places where 64-bit wrapping
  or 32-bit truncating casts can actually be observed (`position as i32 +
  direction) as usize` and `led_count - 1` in `run_demo`) are modelled with
  explicit `% 18446744073709551616` / two's-complement arithmetic.
* Rust `f64` values are modelled as exact rationals (`ℚ`); the float
  literals `0.7`, `0.3`, `0.5`, `0.2`, `0.1`, `0.9`, `80.0`, `1e9` are taken
  at their decimal value, and `f64::MAX` as `2^1024 - 2^971`.  `f64::sin`
  is kept abstract (a function parameter).
* The cells of the frame buffer (`display` in `draw_frame`) are modelled by
  the inductive `Cell`; each colour constructor corresponds to exactly one
  ANSI escape string of the source, serialised by `cellStr`.
* Fallible debug-build arithmetic (`led_count - 1` underflow) is modelled
  separately by `Option`-valued variants (`trailPosChecked`, ...).
-/

namespace Kitt

/-- The six ANSI colour tiers of `draw_frame`: `BRIGHT_RED`, `RED`,
`DIM_RED_1`, `DIM_RED_2`, `DIM_RED_3` and the extra-dim catch-all of the
trail `match`. -/
inductive Color
  | brightRed
  | red
  | dimRed1
  | dimRed2
  | dimRed3
  | extraDim
deriving DecidableEq, Repr

/-- One cell of the `display` vector: a blank space or a coloured block. -/
inductive Cell
  | blank
  | colored (c : Color)
deriving DecidableEq, Repr

/-- The ANSI prefix string of each colour (from the constants in
`draw_frame`). -/
def colorStr : Color → String
  | .brightRed => "\x1b[38;5;196m"
  | .red => "\x1b[38;5;160m"
  | .dimRed1 => "\x1b[38;5;124m"
  | .dimRed2 => "\x1b[38;5;88m"
  | .dimRed3 => "\x1b[38;5;52m"
  | .extraDim => "\x1b[38;5;52;2m"

/-- Serialisation of one cell, as written by `draw_frame`
(`format!("{}█{}", color, RESET)` or the blank `" "`). -/
def cellStr : Cell → String
  | .blank => " "
  | .colored c => colorStr c ++ "█" ++ "\x1b[0m"

/-- Brightness tier index of a colour: 0 = brightest ... 5 = dimmest. -/
def colorLevel : Color → Nat
  | .brightRed => 0
  | .red => 1
  | .dimRed1 => 2
  | .dimRed2 => 3
  | .dimRed3 => 4
  | .extraDim => 5

/-- Brightness tier of a cell; a blank cell sits below every colour. -/
def cellLevel : Cell → Nat
  | .blank => 6
  | .colored c => colorLevel c

/-- Tier of the cell stored at index `j` of a display row. -/
def levelAt (l : List Cell) (j : Nat) : Nat :=
  cellLevel (l.getD j .blank)

/-- The `KnightRiderAnimator` struct. -/
structure KnightRiderAnimator where
  led_count : Nat
  show_metrics : Bool
deriving DecidableEq, Repr

/-- `KnightRiderAnimator::new`. -/
def KnightRiderAnimator.new : KnightRiderAnimator :=
  { led_count := 50, show_metrics := true }

/-- `KnightRiderAnimator::with_leds`. -/
def KnightRiderAnimator.with_leds (led_count : Nat) : KnightRiderAnimator :=
  { led_count := led_count, show_metrics := true }

/-- The builder method `show_metrics` (renamed: the field keeps the source
name). -/
def KnightRiderAnimator.setShowMetrics (a : KnightRiderAnimator) (show_ : Bool) :
    KnightRiderAnimator :=
  { a with show_metrics := show_ }

/-- Trail colour table of the loop body of `draw_frame`
(`match i { 1 => BRIGHT_RED, ... }`). -/
def trailColor : Nat → Color
  | 1 | 2 => .brightRed
  | 3 | 4 => .red
  | 5 | 6 => .dimRed1
  | 7 | 8 => .dimRed2
  | 9 | 10 => .dimRed3
  | _ => .extraDim

/-- The trail index computed for offset `i` in `draw_frame`: behind the
head, clamped to `0` (moving right) or `led_count - 1` (moving left). -/
def trailPos (lc pos : Nat) (dir : Int) (i : Nat) : Nat :=
  if 0 < dir then
    if i ≤ pos then pos - i else 0
  else
    if pos + i < lc then pos + i else lc - 1

/-- `vec![" ".to_string(); self.led_count]`. -/
def blankRow (lc : Nat) : List Cell := List.replicate lc .blank

/-- The head write of `draw_frame`
(`if position < self.led_count { display[position] = BRIGHT_RED ... }`). -/
def headWrite (lc pos : Nat) (d : List Cell) : List Cell :=
  if pos < lc then d.set pos (.colored .brightRed) else d

/-- One iteration of the trail loop of `draw_frame`
(`if trail_pos < self.led_count { display[trail_pos] = ... }`). -/
def trailStep (lc pos : Nat) (dir : Int) (d : List Cell) (i : Nat) : List Cell :=
  if trailPos lc pos dir i < lc then
    d.set (trailPos lc pos dir i) (.colored (trailColor i))
  else d

/-- The trail loop of `draw_frame`, offsets `1, ..., n` applied in
increasing order (`for i in 1..12` is `trailLoopN ... 11`). -/
def trailLoopN (lc pos : Nat) (dir : Int) : Nat → List Cell → List Cell
  | 0, d => d
  | n + 1, d => trailStep lc pos dir (trailLoopN lc pos dir n d) (n + 1)

/-- Display row after the head write and the full 11-offset trail loop. -/
def preDim (lc pos : Nat) (dir : Int) : List Cell :=
  trailLoopN lc pos dir 11 (headWrite lc pos (blankRow lc))

/-- Head colour chosen by the dimming rule from `dim_factor = rate / max_rate`. -/
def dimColor (f : ℚ) : Color :=
  if f < 0.3 then .dimRed1 else if f < 0.5 then .red else .brightRed

/-- The dimming write of `draw_frame`
(`if position < self.led_count && rate < max_rate * 0.7 { ... }`). -/
def dimStep (lc pos : Nat) (rate maxr : ℚ) (d : List Cell) : List Cell :=
  if pos < lc ∧ rate < maxr * 0.7 then
    d.set pos (.colored (dimColor (rate / maxr)))
  else d

/-- The full cell buffer produced by one `draw_frame` call. -/
def renderCells (lc pos : Nat) (dir : Int) (rate maxr : ℚ) : List Cell :=
  dimStep lc pos rate maxr (preDim lc pos dir)

/-- Final colour of the head cell when the trail loop does not clobber it:
the dimming rule replaces `BRIGHT_RED` when `rate < max_rate * 0.7`. -/
def headColor (rate maxr : ℚ) : Color :=
  if rate < maxr * 0.7 then dimColor (rate / maxr) else .brightRed

/-- The `min_rate` display rule of `draw_frame`
(`if min_rate > 1e9 { 0.0 } else { min_rate }`). -/
def dispMin (m : ℚ) : ℚ :=
  if 1000000000 < m then 0 else m

/-- Round-half-to-even integral rounding, the rounding used by Rust's
`{:.0}` float formatting. -/
def roundHalfEven (q : ℚ) : Int :=
  let f := ⌊q⌋
  let r := q - f
  if r < 1 / 2 then f
  else if 1 / 2 < r then f + 1
  else if f % 2 = 0 then f else f + 1

/-- `{:.0}` formatting of a rate value. -/
def fmt0 (q : ℚ) : String := toString (roundHalfEven q)

/-- The single line written by one `draw_frame` call (the `print!`
argument; the trailing flush is a side effect outside the data). -/
def outLine (lc pos : Nat) (dir : Int) (rate minr maxr : ℚ) (sm : Bool) : String :=
  let pattern := String.join ((renderCells lc pos dir rate maxr).map cellStr)
  if sm then
    "\r[" ++ pattern ++ "] " ++ fmt0 rate ++ " msg/s (min: " ++
      fmt0 (dispMin minr) ++ ", max: " ++ fmt0 maxr ++ ")      "
  else
    "\r[" ++ pattern ++ "]"

/-! ## Debug-build (checked) semantics of `draw_frame`

In a Rust debug build `self.led_count - 1` in the trail fallback panics when
`led_count = 0`; the `Option`-valued variants below return `none` exactly
when that subtraction underflows. -/

/-- `trailPos` with checked `led_count - 1`. -/
def trailPosChecked (lc pos : Nat) (dir : Int) (i : Nat) : Option Nat :=
  if 0 < dir then
    some (if i ≤ pos then pos - i else 0)
  else
    if pos + i < lc then some (pos + i)
    else if lc = 0 then none else some (lc - 1)

/-- One checked iteration of the trail loop. -/
def trailStepChecked (lc pos : Nat) (dir : Int) (d : List Cell) (i : Nat) :
    Option (List Cell) :=
  match trailPosChecked lc pos dir i with
  | none => none
  | some tp => some (if tp < lc then d.set tp (.colored (trailColor i)) else d)

/-- The checked trail loop. -/
def trailLoopCheckedN (lc pos : Nat) (dir : Int) : Nat → List Cell → Option (List Cell)
  | 0, d => some d
  | n + 1, d =>
    match trailLoopCheckedN lc pos dir n d with
    | none => none
    | some d' => trailStepChecked lc pos dir d' (n + 1)

/-- `draw_frame`'s cell buffer under debug semantics: `none` means the call
panics. -/
def renderCellsChecked (lc pos : Nat) (dir : Int) (rate maxr : ℚ) :
    Option (List Cell) :=
  (trailLoopCheckedN lc pos dir 11 (headWrite lc pos (blankRow lc))).map
    (dimStep lc pos rate maxr)

/-! ## The animation loop (`run_demo`) -/

/-- Two's-complement value of the low 32 bits (the `as i32` cast and
wrapping `i32` addition). -/
def wrapI32 (z : Int) : Int :=
  (z + 2147483648) % 4294967296 - 2147483648

/-- The `as usize` cast of an `i32` value (sign extension, value mod 2^64). -/
def usizeOfInt (z : Int) : Nat :=
  (z % 18446744073709551616).toNat

/-- Wrapping `usize` decrement (`self.led_count - 1` under release
semantics). -/
def usizePred (n : Nat) : Nat :=
  (n + 18446744073709551615) % 18446744073709551616

/-- `position = (position as i32 + direction) as usize`. -/
def posUpdate (pos : Nat) (dir : Int) : Nat :=
  usizeOfInt (wrapI32 (wrapI32 (pos : Int) + dir))

/-- One per-tick position/direction update of `run_demo` (the code after
`draw_frame`): move, then bounce. -/
def demoStep (lc : Nat) (s : Nat × Int) : Nat × Int :=
  let pos := posUpdate s.1 s.2
  let dir : Int :=
    if usizePred lc ≤ pos then -1
    else if pos = 0 then 1
    else s.2
  (pos, dir)

/-- Position/direction state after `n` ticks, from the initial
`position = 0`, `direction = 1`. -/
def demoIter (lc : Nat) : Nat → Nat × Int
  | 0 => (0, 1)
  | n + 1 => demoStep lc (demoIter lc n)

/-- Strengthened invariant of the bounce rule (for `2 ≤ led_count`). -/
def demoInv (lc : Nat) (s : Nat × Int) : Prop :=
  (s.2 = 1 ∧ s.1 + 2 ≤ lc) ∨ (s.2 = -1 ∧ 1 ≤ s.1 ∧ s.1 + 1 ≤ lc)

/-! ## Rate bookkeeping and display (`run_demo` + `draw_frame`) -/

/-- Exact value of `f64::MAX`, the initial `min_rate` sentinel. -/
def f64MAX : ℚ := 2 ^ 1024 - 2 ^ 971

/-- `min_rate` after folding `min_rate.min(rate)` over a list of samples,
starting from the `f64::MAX` sentinel. -/
def runningMin (rs : List ℚ) : ℚ := rs.foldl min f64MAX

/-- `max_rate` after folding `max_rate.max(rate)` over a list of samples,
starting from `0.0`. -/
def runningMax (rs : List ℚ) : ℚ := rs.foldl max 0

/-! ## The waveform engine (`rate = match patterns[current_pattern] ...`) -/

/-- The `AnimationPattern` enum. -/
inductive AnimationPattern
  | Sine
  | Sawtooth
  | Square
  | Pulse
deriving DecidableEq, Repr

/-- Truncation toward zero, the rounding of Rust's `%` on floats. -/
def ratTrunc (q : ℚ) : Int :=
  if 0 ≤ q then ⌊q⌋ else -⌊-q⌋

/-- Rust's `a % b` on floats: `a - b * trunc(a / b)`. -/
def rustRem (a b : ℚ) : ℚ :=
  a - b * (ratTrunc (a / b) : ℚ)

/-- The simulated rate of one tick of `run_demo`, as a function of the
active pattern, the run-elapsed time, the pattern progress and
`max_rate_value`.  `sinf` abstracts `f64::sin`. -/
def sampleRate (sinf : ℚ → ℚ) (pat : AnimationPattern)
    (elapsed progress maxv : ℚ) : ℚ :=
  let half := maxv / 2
  match pat with
  | .Sine => half + half * sinf (elapsed * 0.2)
  | .Sawtooth => rustRem progress 1 * maxv
  | .Square => if 0 ≤ sinf (elapsed * 0.2) then maxv else maxv * 0.1
  | .Pulse => if 0.9 < sinf (elapsed * 2) then maxv else maxv * 0.2

/-- The adaptive inter-frame delay of `run_demo`:
`speed_factor = 1.0 - (rate / max_rate_value).min(1.0).max(0.0)` and
`delay_ms = base_speed_ms + (speed_factor * 80.0) as u64` (the float→`u64`
cast truncates toward zero and saturates at 0; `u64` addition wraps). -/
def delayMs (base : Nat) (rate maxv : ℚ) : Nat :=
  let speedFactor : ℚ := 1 - max (min (rate / maxv) 1) 0
  (base + (⌊speedFactor * 80⌋).toNat) % 18446744073709551616

/-! ## Helper lemmas: lengths and cell access -/

theorem length_headWrite (lc pos : Nat) (d : List Cell) :
    (headWrite lc pos d).length = d.length := by
  unfold headWrite; split <;> simp

theorem length_trailStep (lc pos : Nat) (dir : Int) (d : List Cell) (i : Nat) :
    (trailStep lc pos dir d i).length = d.length := by
  unfold trailStep; split <;> simp

theorem length_trailLoopN (lc pos : Nat) (dir : Int) (n : Nat) (d : List Cell) :
    (trailLoopN lc pos dir n d).length = d.length := by
  induction n with
  | zero => rfl
  | succ n ih => rw [trailLoopN, length_trailStep, ih]

theorem length_preDim (lc pos : Nat) (dir : Int) :
    (preDim lc pos dir).length = lc := by
  rw [preDim, length_trailLoopN, length_headWrite]
  simp [blankRow]

theorem length_dimStep (lc pos : Nat) (rate maxr : ℚ) (d : List Cell) :
    (dimStep lc pos rate maxr d).length = d.length := by
  unfold dimStep; split <;> simp

theorem length_renderCells (lc pos : Nat) (dir : Int) (rate maxr : ℚ) :
    (renderCells lc pos dir rate maxr).length = lc := by
  rw [renderCells, length_dimStep, length_preDim]

theorem getD_set_self (l : List Cell) (i : Nat) (a b : Cell) (h : i < l.length) :
    (l.set i a).getD i b = a := by
  simp [List.getElem?_set_self h]

theorem getD_set_ne (l : List Cell) {i j : Nat} (a b : Cell) (h : i ≠ j) :
    (l.set i a).getD j b = l.getD j b := by
  simp [List.getElem?_set_ne h]

/-! ## Helper lemmas: the trail loop as a last-write-wins fold -/

theorem trailLoopN_getD_of_no_write (lc pos : Nat) (dir : Int) (n j : Nat)
    (d : List Cell) (h : ∀ i, 1 ≤ i → i ≤ n → trailPos lc pos dir i ≠ j) :
    (trailLoopN lc pos dir n d).getD j .blank = d.getD j .blank := by
  induction n with
  | zero => rfl
  | succ n ih =>
    have hne : trailPos lc pos dir (n + 1) ≠ j := h (n + 1) (by omega) (by omega)
    have ih' := ih fun i h1 h2 => h i h1 (by omega)
    rw [trailLoopN, trailStep]
    split
    · rw [getD_set_ne _ _ _ hne]; exact ih'
    · exact ih'

theorem trailLoopN_getD_write (lc pos : Nat) (dir : Int) (n : Nat) (d : List Cell)
    (hd : d.length = lc) (hlt : trailPos lc pos dir (n + 1) < lc) :
    (trailLoopN lc pos dir (n + 1) d).getD (trailPos lc pos dir (n + 1)) .blank =
      .colored (trailColor (n + 1)) := by
  have hlen : (trailLoopN lc pos dir n d).length = lc := by
    rw [length_trailLoopN, hd]
  rw [trailLoopN, trailStep, if_pos hlt]
  exact getD_set_self _ _ _ _ (by rw [hlen]; exact hlt)

theorem trailLoopN_getD_last_writer (lc pos : Nat) (dir : Int) (m n : Nat)
    (d : List Cell) (hd : d.length = lc) (hm : 1 ≤ m) (hmn : m ≤ n)
    (hlt : trailPos lc pos dir m < lc)
    (hafter : ∀ i, m < i → i ≤ n → trailPos lc pos dir i ≠ trailPos lc pos dir m) :
    (trailLoopN lc pos dir n d).getD (trailPos lc pos dir m) .blank =
      .colored (trailColor m) := by
  induction n with
  | zero => omega
  | succ n ih =>
    rcases Nat.lt_or_ge m (n + 1) with hcase | hcase
    · have hne := hafter (n + 1) (by omega) (by omega)
      have ih' := ih (by omega) fun i hi1 hi2 => hafter i hi1 (by omega)
      rw [trailLoopN, trailStep]
      split
      · rw [getD_set_ne _ _ _ hne]; exact ih'
      · exact ih'
    · have heq : m = n + 1 := by omega
      subst heq
      exact trailLoopN_getD_write lc pos dir n d hd hlt

/-! ## Helper lemmas: closed forms of the rendered cells -/

theorem preDim_head (lc pos : Nat) (dir : Int) (hpos : pos < lc)
    (h : ∀ i, 1 ≤ i → i ≤ 11 → trailPos lc pos dir i ≠ pos) :
    (preDim lc pos dir).getD pos .blank = .colored .brightRed := by
  rw [preDim, trailLoopN_getD_of_no_write lc pos dir 11 pos _ h, headWrite,
    if_pos hpos]
  exact getD_set_self _ _ _ _ (by simpa [blankRow] using hpos)

theorem dimStep_getD_ne (lc pos : Nat) (rate maxr : ℚ) (d : List Cell) (j : Nat)
    (h : j ≠ pos) :
    (dimStep lc pos rate maxr d).getD j .blank = d.getD j .blank := by
  unfold dimStep
  split
  · exact getD_set_ne _ _ _ (Ne.symm h)
  · rfl

theorem trailPos_ne_head (lc pos : Nat) (dir : Int) (i : Nat) (h1 : 1 ≤ i)
    (h2 : ¬(0 < dir ∧ pos = 0)) (h3 : ¬(dir ≤ 0 ∧ pos = lc - 1)) :
    trailPos lc pos dir i ≠ pos := by
  unfold trailPos
  split
  · next hdir =>
    have hp0 : pos ≠ 0 := fun h => h2 ⟨hdir, h⟩
    split <;> omega
  · next hdir =>
    have hple : pos ≠ lc - 1 := fun h => h3 ⟨Int.not_lt.mp hdir, h⟩
    split <;> omega

theorem renderCells_head (lc pos : Nat) (dir : Int) (rate maxr : ℚ)
    (hpos : pos < lc)
    (h : ∀ i, 1 ≤ i → i ≤ 11 → trailPos lc pos dir i ≠ pos) :
    (renderCells lc pos dir rate maxr).getD pos .blank =
      .colored (headColor rate maxr) := by
  rw [renderCells, dimStep, headColor]
  by_cases hc : rate < maxr * 0.7
  · rw [if_pos ⟨hpos, hc⟩, if_pos hc]
    exact getD_set_self _ _ _ _ (by rw [length_preDim]; exact hpos)
  · rw [if_neg (by tauto), if_neg hc]
    exact preDim_head lc pos dir hpos h

theorem colorLevel_trailColor :
    ∀ i, i < 12 → 1 ≤ i → colorLevel (trailColor i) = (i - 1) / 2 := by
  decide

theorem length_headWrite_blank (lc pos : Nat) :
    (headWrite lc pos (blankRow lc)).length = lc := by
  rw [length_headWrite]; simp [blankRow]

theorem preDim_trail_right (lc pos : Nat) (dir : Int) (hdir : 0 < dir)
    (hpos : pos < lc) (k : Nat) (hk1 : 1 ≤ k) (hk11 : k ≤ 11) (hklt : k < pos) :
    (preDim lc pos dir).getD (pos - k) .blank = .colored (trailColor k) := by
  have htp : trailPos lc pos dir k = pos - k := by
    rw [trailPos, if_pos hdir, if_pos (by omega)]
  rw [preDim, ← htp]
  refine trailLoopN_getD_last_writer lc pos dir k 11 _
    (length_headWrite_blank lc pos) hk1 hk11 (by omega) ?_
  intro i hi1 hi2
  rw [htp, trailPos, if_pos hdir]
  split <;> omega

theorem preDim_trail_right_clamp (lc pos : Nat) (dir : Int) (hdir : 0 < dir)
    (hpos : pos < lc) (hp1 : 1 ≤ pos) (hp11 : pos ≤ 11) :
    (preDim lc pos dir).getD 0 .blank = .colored .extraDim := by
  have htp : trailPos lc pos dir 11 = 0 := by
    rw [trailPos, if_pos hdir]; split <;> omega
  have h := trailLoopN_getD_write lc pos dir 10 (headWrite lc pos (blankRow lc))
    (length_headWrite_blank lc pos) (by rw [htp]; omega)
  rw [htp] at h
  exact h

theorem preDim_trail_left (lc pos : Nat) (dir : Int) (hdir : ¬0 < dir)
    (hpos : pos < lc) (k : Nat) (hk1 : 1 ≤ k) (hk11 : k ≤ 11)
    (hklt : pos + k < lc - 1) :
    (preDim lc pos dir).getD (pos + k) .blank = .colored (trailColor k) := by
  have htp : trailPos lc pos dir k = pos + k := by
    rw [trailPos, if_neg hdir, if_pos (by omega)]
  rw [preDim, ← htp]
  refine trailLoopN_getD_last_writer lc pos dir k 11 _
    (length_headWrite_blank lc pos) hk1 hk11 (by omega) ?_
  intro i hi1 hi2
  rw [htp, trailPos, if_neg hdir]
  split <;> omega

theorem preDim_trail_left_clamp (lc pos : Nat) (dir : Int) (hdir : ¬0 < dir)
    (hpos : pos < lc) (hd1 : 1 ≤ lc - 1 - pos) (hd11 : lc - 1 - pos ≤ 11) :
    (preDim lc pos dir).getD (lc - 1) .blank = .colored .extraDim := by
  have htp : trailPos lc pos dir 11 = lc - 1 := by
    rw [trailPos, if_neg hdir]; split <;> omega
  have h := trailLoopN_getD_write lc pos dir 10 (headWrite lc pos (blankRow lc))
    (length_headWrite_blank lc pos) (by rw [htp]; omega)
  rw [htp] at h
  exact h

theorem levelAt_renderCells_right (lc pos : Nat) (dir : Int) (rate maxr : ℚ)
    (hdir : 0 < dir) (hpos : pos < lc) (k : Nat) (hk1 : 1 ≤ k) (hk11 : k ≤ 11)
    (hkpos : k ≤ pos) :
    levelAt (renderCells lc pos dir rate maxr) (pos - k) =
      if k < pos then (k - 1) / 2 else 5 := by
  have hne : pos - k ≠ pos := by omega
  rw [levelAt, renderCells, dimStep_getD_ne lc pos rate maxr _ _ hne]
  by_cases hk : k < pos
  · rw [preDim_trail_right lc pos dir hdir hpos k hk1 hk11 hk, if_pos hk]
    simp only [cellLevel]
    exact colorLevel_trailColor k (by omega) hk1
  · have h0 : pos - k = 0 := by omega
    rw [h0, preDim_trail_right_clamp lc pos dir hdir hpos (by omega) (by omega),
      if_neg hk]
    rfl

theorem levelAt_renderCells_left (lc pos : Nat) (dir : Int) (rate maxr : ℚ)
    (hdir : dir ≤ 0) (hpos : pos < lc) (k : Nat) (hk1 : 1 ≤ k) (hk11 : k ≤ 11)
    (hkb : pos + k ≤ lc - 1) :
    levelAt (renderCells lc pos dir rate maxr) (pos + k) =
      if pos + k < lc - 1 then (k - 1) / 2 else 5 := by
  have hdir' : ¬0 < dir := Int.not_lt.mpr hdir
  have hne : pos + k ≠ pos := by omega
  rw [levelAt, renderCells, dimStep_getD_ne lc pos rate maxr _ _ hne]
  by_cases hk : pos + k < lc - 1
  · rw [preDim_trail_left lc pos dir hdir' hpos k hk1 hk11 hk, if_pos hk]
    simp only [cellLevel]
    exact colorLevel_trailColor k (by omega) hk1
  · have h0 : pos + k = lc - 1 := by omega
    rw [if_neg hk, h0,
      preDim_trail_left_clamp lc pos dir hdir' hpos (by omega) (by omega)]
    rfl

/-! ## Helper lemmas: the `run_demo` position update -/

theorem usizePred_eq (lc : Nat) (h1 : 1 ≤ lc) (h2 : lc ≤ 2147483648) :
    usizePred lc = lc - 1 := by
  unfold usizePred; omega

theorem posUpdate_one (pos : Nat) (h : pos + 1 ≤ 2147483647) :
    posUpdate pos 1 = pos + 1 := by
  unfold posUpdate wrapI32 usizeOfInt; omega

theorem posUpdate_negone (pos : Nat) (h1 : 1 ≤ pos) (h : pos ≤ 2147483647) :
    posUpdate pos (-1) = pos - 1 := by
  unfold posUpdate wrapI32 usizeOfInt; omega

theorem demoStep_inv (lc : Nat) (s : Nat × Int) (h2 : 2 ≤ lc)
    (h31 : lc ≤ 2147483648) (hinv : demoInv lc s) :
    demoInv lc (demoStep lc s) := by
  obtain ⟨pos, dir⟩ := s
  rcases hinv with ⟨hdir, hpos⟩ | ⟨hdir, hpos1, hpos2⟩ <;>
    simp only [demoInv, demoStep] at *
  · subst hdir
    rw [posUpdate_one pos (by omega), usizePred_eq lc (by omega) h31]
    by_cases hb : lc - 1 ≤ pos + 1
    · rw [if_pos hb]; right; exact ⟨rfl, by omega, by omega⟩
    · rw [if_neg hb, if_neg (by omega)]; left; exact ⟨rfl, by omega⟩
  · subst hdir
    rw [posUpdate_negone pos (by omega) (by omega),
      usizePred_eq lc (by omega) h31]
    rw [if_neg (by omega)]
    by_cases hz : pos - 1 = 0
    · rw [if_pos hz]; left; exact ⟨rfl, by omega⟩
    · rw [if_neg hz]; right; exact ⟨rfl, by omega, by omega⟩

theorem demoIter_inv (lc n : Nat) (h2 : 2 ≤ lc) (h31 : lc ≤ 2147483648) :
    demoInv lc (demoIter lc n) := by
  induction n with
  | zero => left; exact ⟨rfl, h2⟩
  | succ n ih => exact demoStep_inv lc _ h2 h31 ih

/-! ## Helper lemmas: running min / max folds -/

theorem foldl_min_le_init (rs : List ℚ) (a : ℚ) : rs.foldl min a ≤ a := by
  induction rs generalizing a with
  | nil => exact le_refl a
  | cons x xs ih => exact le_trans (ih (min a x)) (min_le_left a x)

theorem foldl_min_le_mem (rs : List ℚ) (a r : ℚ) (h : r ∈ rs) :
    rs.foldl min a ≤ r := by
  induction rs generalizing a with
  | nil => cases h
  | cons x xs ih =>
    rcases List.mem_cons.mp h with rfl | hmem
    · exact le_trans (foldl_min_le_init xs (min a r)) (min_le_right a r)
    · exact ih (min a x) hmem

theorem foldl_min_mem_or_init (rs : List ℚ) (a : ℚ) :
    rs.foldl min a = a ∨ rs.foldl min a ∈ rs := by
  induction rs generalizing a with
  | nil => left; rfl
  | cons x xs ih =>
    rcases ih (min a x) with h | h
    · rcases min_choice a x with h' | h'
      · left; rw [List.foldl_cons, h, h']
      · right; rw [List.foldl_cons, h, h']; exact List.mem_cons_self x xs
    · right; exact List.mem_cons_of_mem x h

theorem foldl_max_ge_init (rs : List ℚ) (a : ℚ) : a ≤ rs.foldl max a := by
  induction rs generalizing a with
  | nil => exact le_refl a
  | cons x xs ih => exact le_trans (le_max_left a x) (ih (max a x))

theorem foldl_max_ge_mem (rs : List ℚ) (a r : ℚ) (h : r ∈ rs) :
    r ≤ rs.foldl max a := by
  induction rs generalizing a with
  | nil => cases h
  | cons x xs ih =>
    rcases List.mem_cons.mp h with rfl | hmem
    · exact le_trans (le_max_right a r) (foldl_max_ge_init xs (max a r))
    · exact ih (max a x) hmem

theorem foldl_max_mem_or_init (rs : List ℚ) (a : ℚ) :
    rs.foldl max a = a ∨ rs.foldl max a ∈ rs := by
  induction rs generalizing a with
  | nil => left; rfl
  | cons x xs ih =>
    rcases ih (max a x) with h | h
    · rcases max_choice a x with h' | h'
      · left; rw [List.foldl_cons, h, h']
      · right; rw [List.foldl_cons, h, h']; exact List.mem_cons_self x xs
    · right; exact List.mem_cons_of_mem x h

/-! ## Helper lemmas: debug (checked) semantics -/

theorem trailLoopCheckedN_zero_none (pos : Nat) (dir : Int) (n : Nat)
    (d : List Cell) (hdir : dir ≤ 0) (hn : 1 ≤ n) :
    trailLoopCheckedN 0 pos dir n d = none := by
  induction n with
  | zero => omega
  | succ n ih =>
    rcases Nat.eq_zero_or_pos n with rfl | hpos'
    · simp [trailLoopCheckedN, trailStepChecked, trailPosChecked,
        Int.not_lt.mpr hdir]
    · simp [trailLoopCheckedN, ih hpos']

theorem trailPosChecked_eq (lc pos : Nat) (dir : Int) (i : Nat) (h : 1 ≤ lc) :
    trailPosChecked lc pos dir i = some (trailPos lc pos dir i) := by
  rw [trailPosChecked, trailPos]
  by_cases h1 : 0 < dir
  · rw [if_pos h1, if_pos h1]
  · rw [if_neg h1, if_neg h1]
    by_cases h2 : pos + i < lc
    · rw [if_pos h2, if_pos h2]
    · rw [if_neg h2, if_neg h2, if_neg (by omega)]

theorem trailLoopCheckedN_eq (lc pos : Nat) (dir : Int) (n : Nat)
    (d : List Cell) (h : 1 ≤ lc) :
    trailLoopCheckedN lc pos dir n d = some (trailLoopN lc pos dir n d) := by
  induction n with
  | zero => rfl
  | succ n ih =>
    simp only [trailLoopCheckedN, ih, trailStepChecked,
      trailPosChecked_eq lc pos dir (n + 1) h, trailLoopN, trailStep]

/-! ## Helper lemmas: the delay clamp -/

theorem clamp_compl (x : ℚ) : 1 - max (min x 1) 0 = max 0 (min 1 (1 - x)) := by
  simp only [min_def, max_def]
  split_ifs <;> linarith

/-! ## Claim theorems -/

/-- Claim C1, counterexample.  At `position = 0` with `direction = 1` the
trail loop clamps every offset to index 0 — the head's own index — so the
head cell ends up with the extra-dim trail colour instead of a head tier;
and at `position = 2` the trail offsets 1 and 2 reuse `BRIGHT_RED`, so the
head is not the single brightest-tier cell. -/
theorem trail_head_overlap_cex :
    trailPos 3 0 1 1 = 0 ∧ (0 : Nat) < 3 ∧
    (renderCells 3 0 1 1 1).getD 0 .blank = .colored .extraDim ∧
    (renderCells 5 2 1 1 1).getD 1 .blank = .colored .brightRed ∧
    (renderCells 5 2 1 1 1).getD 2 .blank = .colored .brightRed := by
  refine ⟨by norm_num [trailPos], by norm_num, ?_, ?_, ?_⟩ <;>
    norm_num [renderCells, dimStep, preDim, trailLoopN, trailStep, trailPos,
      headWrite, blankRow, trailColor]

/-- Claim C1, amended.  For `position < led_count`, outside the two clamp
situations (`direction > 0` with `position = 0`, and `direction ≤ 0` with
`position = led_count - 1`) no trail offset targets the head's index, and
the head cell carries the bright-or-dimmed head colour chosen by the
dimming rule. -/
theorem draw_frame_head_preserved (lc pos : Nat) (dir : Int) (rate maxr : ℚ)
    (hpos : pos < lc) (h2 : ¬(0 < dir ∧ pos = 0))
    (h3 : ¬(dir ≤ 0 ∧ pos = lc - 1)) :
    (∀ i, 1 ≤ i → i ≤ 11 → trailPos lc pos dir i ≠ pos) ∧
    (renderCells lc pos dir rate maxr).getD pos .blank =
      .colored (headColor rate maxr) := by
  have h := fun i h1 (_ : i ≤ 11) => trailPos_ne_head lc pos dir i h1 h2 h3
  exact ⟨h, renderCells_head lc pos dir rate maxr hpos h⟩

/-- Claim C1, witness for the amended theorem at
`led_count = 10`, `position = 5`, `direction = 1`. -/
theorem draw_frame_head_preserved_w :
    ((5 : Nat) < 10 ∧ ¬((0 : Int) < 1 ∧ (5 : Nat) = 0) ∧
      ¬((1 : Int) ≤ 0 ∧ (5 : Nat) = 10 - 1)) ∧
    trailPos 10 5 1 3 ≠ 5 ∧
    (renderCells 10 5 1 1 1).getD 5 .blank = .colored (headColor 1 1) :=
  ⟨⟨by norm_num, by norm_num, by norm_num⟩,
   (draw_frame_head_preserved 10 5 1 1 1 (by norm_num) (by norm_num)
     (by norm_num)).1 3 (by norm_num) (by norm_num),
   (draw_frame_head_preserved 10 5 1 1 1 (by norm_num) (by norm_num)
     (by norm_num)).2⟩

/-- Claim C2, counterexample.  With `led_count = 1` the position leaves the
range `[0, led_count)` at the very first update (it becomes 1), and at the
third update the `(position as i32 + direction) as usize` cast wraps it to
`2^64 - 1`. -/
theorem run_demo_position_escapes_cex :
    (demoIter 1 0).1 = 0 ∧ (demoIter 1 1).1 = 1 ∧ ¬(demoIter 1 1).1 < 1 ∧
    (demoIter 1 3).1 = 18446744073709551615 := by
  have e1 : (demoIter 1 1).1 = 1 := by
    norm_num [demoIter, demoStep, posUpdate, wrapI32, usizeOfInt, usizePred]
  have e3 : (demoIter 1 3).1 = 18446744073709551615 := by
    norm_num [demoIter, demoStep, posUpdate, wrapI32, usizeOfInt, usizePred]
    omega
  exact ⟨rfl, e1, by omega, e3⟩

/-- Claim C2, amended.  For `2 ≤ led_count ≤ 2^31` the loop state of
`run_demo` keeps `0 ≤ position < led_count` before and after every per-tick
update, and `direction` stays in `{1, -1}`. -/
theorem run_demo_position_invariant (lc n : Nat) (h2 : 2 ≤ lc)
    (h31 : lc ≤ 2147483648) :
    (demoIter lc n).1 < lc ∧
    ((demoIter lc n).2 = 1 ∨ (demoIter lc n).2 = -1) := by
  rcases demoIter_inv lc n h2 h31 with ⟨hd, hp⟩ | ⟨hd, hp1, hp2⟩
  · exact ⟨by omega, Or.inl hd⟩
  · exact ⟨by omega, Or.inr hd⟩

/-- Claim C2, witness for the amended theorem at `led_count = 2` after 5
ticks. -/
theorem run_demo_position_invariant_w :
    ((2 : Nat) ≤ 2 ∧ (2 : Nat) ≤ 2147483648) ∧
    ((demoIter 2 5).1 < 2 ∧ ((demoIter 2 5).2 = 1 ∨ (demoIter 2 5).2 = -1)) :=
  ⟨⟨by norm_num, by norm_num⟩,
   run_demo_position_invariant 2 5 (by norm_num) (by norm_num)⟩

/-- Claim C3.  When the head is in range and `rate < 0.7 * max_rate`, the
head cell is recoloured to `dimColor (rate / max_rate)` (below 0.3 →
`DIM_RED_1`, below 0.5 → `RED`, otherwise `BRIGHT_RED`); the dimming write
changes no cell other than the head; and for nonnegative rates the guard
can only fire when `max_rate > 0`. -/
theorem draw_frame_dimming_rule (lc pos : Nat) (dir : Int) (rate maxr : ℚ) :
    (pos < lc → rate < 0.7 * maxr →
      (renderCells lc pos dir rate maxr).getD pos .blank =
        .colored (dimColor (rate / maxr))) ∧
    (∀ j, j ≠ pos →
      (renderCells lc pos dir rate maxr).getD j .blank =
        (preDim lc pos dir).getD j .blank) ∧
    (0 ≤ rate → rate < 0.7 * maxr → 0 < maxr) := by
  refine ⟨?_, ?_, ?_⟩
  · intro hpos hc
    have hc' : rate < maxr * 0.7 := by rwa [mul_comm maxr 0.7]
    rw [renderCells, dimStep, if_pos ⟨hpos, hc'⟩]
    exact getD_set_self _ _ _ _ (by rw [length_preDim]; exact hpos)
  · intro j hj
    rw [renderCells]
    exact dimStep_getD_ne lc pos rate maxr _ j hj
  · intro h0 hc
    nlinarith

/-- Claim C3, witness at `led_count = 10`, `position = 3`, `rate = 1`,
`max_rate = 10` (dim factor 0.1, dimmest head tier). -/
theorem draw_frame_dimming_rule_w :
    ((3 : Nat) < 10 ∧ (1 : ℚ) < 0.7 * 10 ∧ (0 : ℚ) ≤ 1) ∧
    (renderCells 10 3 1 1 10).getD 3 .blank = .colored (dimColor (1 / 10)) ∧
    (0 : ℚ) < 10 :=
  ⟨⟨by norm_num, by norm_num, by norm_num⟩,
   (draw_frame_dimming_rule 10 3 1 1 10).1 (by norm_num) (by norm_num),
   (draw_frame_dimming_rule 10 3 1 1 10).2.2 (by norm_num) (by norm_num)⟩

/-- Claim C4, counterexample.  After the single sample 2·10^9 the running
minimum is 2·10^9 — not the `f64::MAX` sentinel — yet the displayed
minimum is 0, because `draw_frame` tests `min_rate > 1e9` rather than for
the sentinel. -/
theorem metrics_min_display_cex :
    runningMin [2000000000] = 2000000000 ∧ (2000000000 : ℚ) ≠ f64MAX ∧
    dispMin (runningMin [2000000000]) = 0 ∧ (0 : ℚ) ≠ 2000000000 := by
  have h : runningMin [2000000000] = 2000000000 := by
    norm_num [runningMin, f64MAX]
  refine ⟨h, by norm_num [f64MAX], ?_, by norm_num⟩
  rw [h]
  norm_num [dispMin]

/-- Claim C4, amended.  The sentinel `f64::MAX` is displayed as 0 (as is
any running minimum above 1e9); for a nonempty run of samples, all within
`[0, 1e9]`, the displayed minimum equals the running minimum, which is an
attained lower bound of the samples, and the running maximum is an
attained upper bound of the samples. -/
theorem metrics_min_display (rs : List ℚ) (hne : rs ≠ [])
    (hb : ∀ r ∈ rs, 0 ≤ r ∧ r ≤ 1000000000) :
    dispMin f64MAX = 0 ∧
    dispMin (runningMin rs) = runningMin rs ∧
    runningMin rs ∈ rs ∧ (∀ r ∈ rs, runningMin rs ≤ r) ∧
    runningMax rs ∈ rs ∧ (∀ r ∈ rs, r ≤ runningMax rs) := by
  obtain ⟨x, xs, rfl⟩ : ∃ x xs, rs = x :: xs := by
    cases rs with
    | nil => exact absurd rfl hne
    | cons x xs => exact ⟨x, xs, rfl⟩
  simp only [runningMin, runningMax]
  have hxmem : x ∈ x :: xs := List.mem_cons_self x xs
  have hmin_le : ∀ r ∈ x :: xs, (x :: xs).foldl min f64MAX ≤ r :=
    fun r hr => foldl_min_le_mem _ _ r hr
  have hminmem : (x :: xs).foldl min f64MAX ∈ x :: xs := by
    rcases foldl_min_mem_or_init (x :: xs) f64MAX with h | h
    · exfalso
      have h1 := hmin_le x hxmem
      rw [h] at h1
      have h2 := (hb x hxmem).2
      have : f64MAX ≤ 1000000000 := le_trans h1 h2
      norm_num [f64MAX] at this
    · exact h
  have hmin1e9 : (x :: xs).foldl min f64MAX ≤ 1000000000 :=
    (hb _ hminmem).2
  have hmax_ge : ∀ r ∈ x :: xs, r ≤ (x :: xs).foldl max 0 :=
    fun r hr => foldl_max_ge_mem _ _ r hr
  have hmaxmem : (x :: xs).foldl max 0 ∈ x :: xs := by
    rcases foldl_max_mem_or_init (x :: xs) 0 with h | h
    · have hx0 : x ≤ 0 := h ▸ hmax_ge x hxmem
      have hx : x = 0 := le_antisymm hx0 (hb x hxmem).1
      rw [h, ← hx]
      exact hxmem
    · exact h
  refine ⟨?_, ?_, hminmem, hmin_le, hmaxmem, hmax_ge⟩
  · rw [dispMin, if_pos (by norm_num [f64MAX])]
  · rw [dispMin, if_neg (not_lt.mpr hmin1e9)]

/-- Claim C4, witness for the amended theorem with the single sample 5. -/
theorem metrics_min_display_w :
    (([(5 : ℚ)] ≠ []) ∧ (∀ r ∈ [(5 : ℚ)], 0 ≤ r ∧ r ≤ 1000000000)) ∧
    (dispMin f64MAX = 0 ∧ dispMin (runningMin [(5 : ℚ)]) = runningMin [(5 : ℚ)] ∧
      runningMin [(5 : ℚ)] ∈ [(5 : ℚ)] ∧ (∀ r ∈ [(5 : ℚ)], runningMin [(5 : ℚ)] ≤ r) ∧
      runningMax [(5 : ℚ)] ∈ [(5 : ℚ)] ∧ (∀ r ∈ [(5 : ℚ)], r ≤ runningMax [(5 : ℚ)])) :=
  ⟨⟨by norm_num, by norm_num⟩,
   metrics_min_display [(5 : ℚ)] (by norm_num) (by norm_num)⟩

/-- Claim C5, counterexample.  At `base_speed = 0`, `rate = 99`,
`max_rate_value = 100` the code computes `0 + trunc(0.8) = 0` while the
claimed formula `base + round(80 * clamp(1 - rate/max, 0, 1))` gives 1:
the cast truncates, it does not round. -/
theorem delay_truncation_cex :
    delayMs 0 99 100 = 0 ∧
    0 + (round ((80 : ℚ) * max 0 (min 1 (1 - 99 / 100)))).toNat = 1 ∧
    (0 : Nat) ≠ 1 := by
  refine ⟨by norm_num [delayMs], ?_, by norm_num⟩
  norm_num [round_eq]

/-- Claim C5, amended.  For `max_rate_value > 0` (and a base that does not
overflow `u64`) the delay is
`base_speed + floor(80 * clamp(1 - rate/max_rate_value, 0, 1))`; it equals
`base_speed` whenever `rate ≥ max_rate_value` and never exceeds
`base_speed + 80`. -/
theorem delay_formula (base : Nat) (rate maxv : ℚ)
    (hb : base + 80 < 18446744073709551616) (hm : 0 < maxv) :
    delayMs base rate maxv =
      base + (⌊(80 : ℚ) * max 0 (min 1 (1 - rate / maxv))⌋).toNat ∧
    (maxv ≤ rate → delayMs base rate maxv = base) ∧
    delayMs base rate maxv ≤ base + 80 := by
  have hsf0 : (0 : ℚ) ≤ 1 - max (min (rate / maxv) 1) 0 := by
    have h1 : max (min (rate / maxv) 1) 0 ≤ 1 :=
      max_le (min_le_right _ _) zero_le_one
    linarith
  have hfl0 : (0 : Int) ≤ ⌊(1 - max (min (rate / maxv) 1) 0) * 80⌋ :=
    Int.floor_nonneg.mpr (mul_nonneg hsf0 (by norm_num))
  have hfl80 : ⌊(1 - max (min (rate / maxv) 1) 0) * 80⌋ ≤ 80 := by
    have hsf1 : 1 - max (min (rate / maxv) 1) 0 ≤ 1 := by
      have := le_max_right (min (rate / maxv) 1) (0 : ℚ)
      linarith
    have hle : (1 - max (min (rate / maxv) 1) 0) * 80 ≤ (80 : ℚ) := by nlinarith
    calc ⌊(1 - max (min (rate / maxv) 1) 0) * 80⌋ ≤ ⌊(80 : ℚ)⌋ :=
          Int.floor_le_floor hle
      _ = 80 := by norm_num
  have hmain : delayMs base rate maxv =
      base + (⌊(1 - max (min (rate / maxv) 1) 0) * 80⌋).toNat := by
    simp only [delayMs]
    exact Nat.mod_eq_of_lt (by omega)
  refine ⟨?_, ?_, ?_⟩
  · rw [hmain]
    have harg : (1 - max (min (rate / maxv) 1) 0) * 80 =
        (80 : ℚ) * max 0 (min 1 (1 - rate / maxv)) := by
      rw [clamp_compl (rate / maxv)]; ring
    rw [harg]
  · intro hge
    have h1 : (1 : ℚ) ≤ rate / maxv := (one_le_div hm).mpr hge
    have hcl : max (min (rate / maxv) 1) 0 = 1 := by
      rw [min_eq_right h1, max_eq_left zero_le_one]
    rw [hmain, hcl]
    norm_num
  · rw [hmain]
    omega

/-- Claim C5, witness for the amended theorem at `base = 10`, `rate = 1`,
`max_rate_value = 2`. -/
theorem delay_formula_w :
    ((10 : Nat) + 80 < 18446744073709551616 ∧ (0 : ℚ) < 2) ∧
    delayMs 10 1 2 = 10 + (⌊(80 : ℚ) * max 0 (min 1 (1 - 1 / 2))⌋).toNat ∧
    delayMs 10 1 2 ≤ 10 + 80 :=
  ⟨⟨by norm_num, by norm_num⟩,
   (delay_formula 10 1 2 (by norm_num) (by norm_num)).1,
   (delay_formula 10 1 2 (by norm_num) (by norm_num)).2.2⟩

/-- Claim C6, counterexample.  At `led_count = 20`, `position = 5`,
`direction = 1` the offsets 5 and 6 both target cell 0 (a more-distant
offset overwrites a cell already set by a closer one), and after the loop
cell 0 holds the offset-11 extra-dim colour, not offset 5's colour. -/
theorem trail_overwrite_cex :
    trailPos 20 5 1 5 = 0 ∧ trailPos 20 5 1 6 = 0 ∧ (5 : Nat) ≠ 6 ∧
    (0 : Nat) < 20 ∧
    (renderCells 20 5 1 1 1).getD 0 .blank = .colored .extraDim := by
  refine ⟨by norm_num [trailPos], by norm_num [trailPos], by norm_num,
    by norm_num, ?_⟩
  norm_num [renderCells, dimStep, preDim, trailLoopN, trailStep, trailPos,
    headWrite, blankRow, trailColor]

/-- Claim C6, amended.  The step table maps offset `i` to tier
`(i - 1) / 2`; two distinct offsets collide only on the clamp cell (0 when
moving right, `led_count - 1` when moving left); and the visible trail
intensity is non-increasing with distance from the head up to offset 11
(tier index non-decreasing), on the in-range trail cells of either
direction. -/
theorem trail_table_monotone (lc pos : Nat) (dir : Int) (rate maxr : ℚ)
    (d d' i j : Nat) (hpos : pos < lc) :
    (i < 12 → 1 ≤ i → colorLevel (trailColor i) = (i - 1) / 2) ∧
    (1 ≤ i → i < j → j ≤ 11 → trailPos lc pos dir i = trailPos lc pos dir j →
      trailPos lc pos dir j = if 0 < dir then 0 else lc - 1) ∧
    (0 < dir → 1 ≤ d → d ≤ d' → d' ≤ 11 → d' ≤ pos →
      levelAt (renderCells lc pos dir rate maxr) (pos - d) ≤
        levelAt (renderCells lc pos dir rate maxr) (pos - d')) ∧
    (dir ≤ 0 → 1 ≤ d → d ≤ d' → d' ≤ 11 → pos + d' ≤ lc - 1 →
      levelAt (renderCells lc pos dir rate maxr) (pos + d) ≤
        levelAt (renderCells lc pos dir rate maxr) (pos + d')) := by
  refine ⟨fun h12 h1 => colorLevel_trailColor i h12 h1, ?_, ?_, ?_⟩
  · intro h1 hij hj11 heq
    by_cases hdir : 0 < dir
    · rw [if_pos hdir]
      simp only [trailPos, if_pos hdir] at heq ⊢
      split_ifs at heq ⊢ <;> omega
    · rw [if_neg hdir]
      simp only [trailPos, if_neg hdir] at heq ⊢
      split_ifs at heq ⊢ <;> omega
  · intro hdir hd1 hdd hd'11 hd'pos
    rw [levelAt_renderCells_right lc pos dir rate maxr hdir hpos d hd1
        (by omega) (by omega),
      levelAt_renderCells_right lc pos dir rate maxr hdir hpos d' (by omega)
        hd'11 hd'pos]
    split_ifs <;> omega
  · intro hdir hd1 hdd hd'11 hbound
    rw [levelAt_renderCells_left lc pos dir rate maxr hdir hpos d hd1
        (by omega) (by omega),
      levelAt_renderCells_left lc pos dir rate maxr hdir hpos d' (by omega)
        hd'11 hbound]
    split_ifs <;> omega

/-- Claim C6, witness for the amended theorem at `led_count = 20`,
`position = 12`, `direction = 1`, offsets 1 and 3. -/
theorem trail_table_monotone_w :
    ((12 : Nat) < 20) ∧ colorLevel (trailColor 3) = (3 - 1) / 2 ∧
    levelAt (renderCells 20 12 1 1 1) (12 - 1) ≤
      levelAt (renderCells 20 12 1 1 1) (12 - 3) :=
  ⟨by norm_num,
   (trail_table_monotone 20 12 1 1 1 0 0 3 0 (by norm_num)).1 (by norm_num)
     (by norm_num),
   (trail_table_monotone 20 12 1 1 1 1 3 0 0 (by norm_num)).2.2.1 (by norm_num)
     (by norm_num) (by norm_num) (by norm_num) (by norm_num)⟩

/-- Claim C7.  The sampled rate follows each pattern's formula exactly:
Sine `half + half*sin(0.2*e)`, Sawtooth `(p mod 1)*max`, Square `max` when
`sin(0.2*e) ≥ 0` else `0.1*max`, Pulse `max` when `sin(2*e) > 0.9` else
`0.2*max` (with `half = max/2` and `mod` the truncated float remainder). -/
theorem waveform_formulas (sinf : ℚ → ℚ) (e p maxv : ℚ) :
    sampleRate sinf .Sine e p maxv = maxv / 2 + maxv / 2 * sinf (0.2 * e) ∧
    sampleRate sinf .Sawtooth e p maxv = rustRem p 1 * maxv ∧
    sampleRate sinf .Square e p maxv =
      (if 0 ≤ sinf (0.2 * e) then maxv else 0.1 * maxv) ∧
    sampleRate sinf .Pulse e p maxv =
      (if 0.9 < sinf (2 * e) then maxv else 0.2 * maxv) := by
  refine ⟨?_, rfl, ?_, ?_⟩
  · simp only [sampleRate]
    rw [mul_comm e (0.2 : ℚ)]
  · simp only [sampleRate]
    rw [mul_comm e (0.2 : ℚ), mul_comm maxv (0.1 : ℚ)]
  · simp only [sampleRate]
    rw [mul_comm e (2 : ℚ), mul_comm maxv (0.2 : ℚ)]

/-- Claim C8.  `with_leds(0)` is accepted as-is: the constructor performs no
validation and yields an animator with a zero-width bar (the spec requires
such configurations to be rejected with a descriptive failure). -/
theorem with_leds_accepts_zero :
    (KnightRiderAnimator.with_leds 0).led_count = 0 ∧
    (KnightRiderAnimator.with_leds 0).show_metrics = true ∧
    KnightRiderAnimator.with_leds 0 =
      { led_count := 0, show_metrics := true } :=
  ⟨rfl, rfl, rfl⟩

/-- Claim C9.  For `led_count ≥ 1` and `position` in range, one
`draw_frame` call renders exactly `led_count` cells, and the emitted line
is the bracketed serialisation of those cells followed by the metrics
suffix — a pure function of the argument tuple. -/
theorem draw_frame_cell_count (lc pos : Nat) (dir : Int)
    (rate minr maxr : ℚ) (sm : Bool) (h1 : 1 ≤ lc) (hpos : pos < lc) :
    (renderCells lc pos dir rate maxr).length = lc ∧
    outLine lc pos dir rate minr maxr sm =
      "\r[" ++ String.join ((renderCells lc pos dir rate maxr).map cellStr) ++
        (if sm then
          "] " ++ fmt0 rate ++ " msg/s (min: " ++ fmt0 (dispMin minr) ++
            ", max: " ++ fmt0 maxr ++ ")      "
        else "]") := by
  refine ⟨length_renderCells lc pos dir rate maxr, ?_⟩
  cases sm <;> simp [outLine, String.append_assoc]

/-- Claim C9, witness at `led_count = 2`, `position = 0`,
`show_metrics = true`. -/
theorem draw_frame_cell_count_w :
    ((1 : Nat) ≤ 2 ∧ (0 : Nat) < 2) ∧
    ((renderCells 2 0 1 1 1).length = 2 ∧
      outLine 2 0 1 1 5 1 true =
        "\r[" ++ String.join ((renderCells 2 0 1 1 1).map cellStr) ++
          (if true then
            "] " ++ fmt0 1 ++ " msg/s (min: " ++ fmt0 (dispMin 5) ++
              ", max: " ++ fmt0 1 ++ ")      "
          else "]")) :=
  ⟨⟨by norm_num, by norm_num⟩,
   draw_frame_cell_count 2 0 1 1 5 1 true (by norm_num) (by norm_num)⟩

/-- Claim C10.  `with_leds` admits `led_count = 0`, and for that width any
call with `direction ≤ 0` hits the underflowing `led_count - 1` fallback
(debug-build panic, modelled as `none`); with `led_count ≥ 1` the checked
computation always succeeds and agrees with the total model. -/
theorem draw_frame_totality :
    (∀ (pos : Nat) (dir : Int) (rate maxr : ℚ), dir ≤ 0 →
      renderCellsChecked 0 pos dir rate maxr = none) ∧
    (∀ (lc pos : Nat) (dir : Int) (rate maxr : ℚ), 1 ≤ lc →
      renderCellsChecked lc pos dir rate maxr =
        some (renderCells lc pos dir rate maxr)) ∧
    (KnightRiderAnimator.with_leds 0).led_count = 0 := by
  refine ⟨?_, ?_, rfl⟩
  · intro pos dir rate maxr hdir
    rw [renderCellsChecked,
      trailLoopCheckedN_zero_none pos dir 11 _ hdir (by norm_num)]
    rfl
  · intro lc pos dir rate maxr h
    rw [renderCellsChecked, trailLoopCheckedN_eq lc pos dir 11 _ h]
    rfl

/-- Claim C10, witness: the checked render panics at `led_count = 0`,
`direction = -1`, and succeeds at `led_count = 2`. -/
theorem draw_frame_totality_w :
    ((-1 : Int) ≤ 0 ∧ (1 : Nat) ≤ 2) ∧
    renderCellsChecked 0 0 (-1) 0 0 = none ∧
    renderCellsChecked 2 0 1 0 0 = some (renderCells 2 0 1 0 0) :=
  ⟨⟨by norm_num, by norm_num⟩,
   draw_frame_totality.1 0 (-1) 0 0 (by norm_num),
   draw_frame_totality.2.1 2 0 1 0 0 (by norm_num)⟩

end Kitt
